import Mathlib

/-!
Verification of the Args command-line parsing library (the `argv`
implementation in `args_rules.go`, the Chop/Validate family in the
argv part of the chop file, and the accessors in `args_accessors.go`).

The binding state `Argv` mirrors the Go struct `argv`.  Go maps over
string keys are modelled as association lists with overwrite-insert
(`alInsert`), which is the canonical representation built by the code
(every write goes through `m[k] = v`).  Go slices are modelled as
lists.  Go's `clone` copies every slice with `make`/`copy` of the full
length and re-inserts every map entry into a fresh map; in this pure
model the slice copy is `List.take len` (proved to be the identity)
and the map copy is the map itself.
-/

/-- Validation errors accumulated in `argv.errors`, one constructor per
`fmt.Errorf` call site in the matching code. -/
inductive ArgErr where
  /-- Message "Flag '%v' was expected and not found." -/
  | flagExpected (name : String)
  /-- Message "Option '%v' was expected and not found." -/
  | optionExpected (name : String)
  /-- Message "No more arguments to consume." -/
  | noMoreArguments
  /-- Message "%v arguments were not properly consumed." -/
  | unconsumedArguments (count : Nat)
deriving Repr, DecidableEq

/-- Errors returned by the accessor functions in `args_accessors.go`. -/
inductive AccessErr where
  /-- Message "You must explicitly Expect or Allow the flag '%v'." -/
  | mustAllowFlag (name : String)
  /-- Message "Option '%v' was not found." -/
  | optionNotFound (name : String)
  /-- Message "No parameter present at index %v." -/
  | noParamAt (index : Int)
  /-- Message "No parameter present with name %v." -/
  | noParamNamed (name : String)
deriving Repr, DecidableEq

/-- Write `m[k] = v` on a Go map modelled as an association list: overwrite the
existing binding for `k`, or append a fresh one. -/
def alInsert {α β : Type} [DecidableEq α] (m : List (α × β)) (k : α) (v : β) : List (α × β) :=
  match m with
  | [] => [(k, v)]
  | (k', v') :: rest => if k' = k then (k, v) :: rest else (k', v') :: alInsert rest k v

/-- Read `v, ok := m[k]` on a Go map modelled as an association list. -/
def alookup {α β : Type} [DecidableEq α] (m : List (α × β)) (k : α) : Option β :=
  match m with
  | [] => none
  | (k', v') :: rest => if k' = k then some v' else alookup rest k

/-- The binding state: Go struct `argv` in `args_rules.go`. -/
structure Argv where
  /-- Field `args []string`: copy of the arguments passed in. -/
  args : List String
  /-- Field `consumed []bool`: whether the argument at each index was consumed. -/
  consumed : List Bool
  /-- Field `errors []error`: errors that occur while matching arguments. -/
  errors : List ArgErr
  /-- Field `flags map[string]bool`: flags that were checked. -/
  flags : List (String × Bool)
  /-- Field `options map[string]string`: options that were set. -/
  options : List (String × String)
  /-- Field `parameters []string`: positional parameters. -/
  parameters : List String
  /-- Field `namedParameters map[string]int`: parameter names to their index. -/
  namedParameters : List (String × Nat)
deriving Repr, DecidableEq

/-- Go `clone`: each slice is copied with `make` of the same length
followed by `copy` (hence `take len`); each map is rebuilt entry by
entry, which on a map value is the map itself. -/
def Argv.clone (orig : Argv) : Argv :=
  { args := orig.args.take orig.args.length
    consumed := orig.consumed.take orig.consumed.length
    errors := orig.errors.take orig.errors.length
    flags := orig.flags
    options := orig.options
    parameters := orig.parameters.take orig.parameters.length
    namedParameters := orig.namedParameters }

/-- Modelled from the spec: the constructor (`Load` in the tests) is not
under src/; the spec's lifecycle section fixes it: "a Binding State is
created once from a raw token list (all `consumed = false`, all
accumulators empty)". -/
def Load (args : List String) : Argv :=
  { args := args
    consumed := args.map (fun _ => false)
    errors := []
    flags := []
    options := []
    parameters := []
    namedParameters := [] }

/-- Token match test shared by the flag and option scans: Go checks
`len(n) == 1` (byte length) and then `strings.HasPrefix(arg, "-") &&
arg[1:] == n` (resp. `"--"` and `arg[2:]`), which is exactly the
equation `arg = "-" ++ n` (resp. `arg = "--" ++ n`). -/
def nameMatches (n arg : String) : Bool :=
  if n.utf8ByteSize = 1 then arg = "-" ++ n else arg = "--" ++ n

/-- Inner loop of Go `getFlag` for one candidate name `n`: walk the
tokens with their consumed markers, skipping consumed ones; `present`
is carried in (NOT reset per name in the Go code); the first unconsumed
token for which `present` becomes true is marked consumed and the scan
breaks. -/
def scanFlag1 (n : String) : List String → List Bool → Bool → List Bool × Bool
  | [], cs, present => (cs, present)
  | _ :: _, [], present => ([], present)
  | arg :: args, c :: cs, present =>
    if c then
      let r := scanFlag1 n args cs present
      (c :: r.1, r.2)
    else
      if present || nameMatches n arg then (true :: cs, true)
      else
        let r := scanFlag1 n args cs false
        (false :: r.1, r.2)

/-- Outer loop of Go `getFlag`: try each candidate name in order,
threading both the consumed markers and the `present` accumulator. -/
def scanFlags : List String → List String → List Bool → Bool → List Bool × Bool
  | [], _, cs, present => (cs, present)
  | n :: ns, args, cs, present =>
    let r := scanFlag1 n args cs present
    scanFlags ns args r.1 r.2

/-- Go `getFlag`: clone, scan for `name :: alts`, record `present` under
the primary name regardless of outcome. -/
def Argv.getFlag (chain : Argv) (name : String) (alts : List String) : Argv × Bool :=
  let out := chain.clone
  let r := scanFlags (name :: alts) out.args out.consumed false
  ({ out with consumed := r.1, flags := alInsert out.flags name r.2 }, r.2)

/-- Go `AllowFlag`. -/
def Argv.AllowFlag (chain : Argv) (name : String) (alts : List String) : Argv :=
  (chain.getFlag name alts).1

/-- Go `ExpectFlag`: append an error when the flag was not found. -/
def Argv.ExpectFlag (chain : Argv) (name : String) (alts : List String) : Argv :=
  let r := chain.getFlag name alts
  if r.2 then r.1
  else { r.1 with errors := r.1.errors ++ [ArgErr.flagExpected name] }

/-- Scan of Go `getOption` for one candidate name `n` over the token
suffix starting at absolute index `k`: skip consumed tokens; a token at
absolute index `i` matches when the name matches and `total > i + 1`
(a further token exists in the full sequence).  Returns the index of
the first match.  Until a match is found the Go code performs no
mutation (`out = chain`), so a pure index search is faithful. -/
def findOption1 (n : String) (total : Nat) : List String → List Bool → Nat → Option Nat
  | [], _, _ => none
  | _ :: _, [], _ => none
  | arg :: args, c :: cs, k =>
    if c then findOption1 n total args cs (k + 1)
    else if nameMatches n arg && decide (total > k + 1) then some k
    else findOption1 n total args cs (k + 1)

/-- Outer loop of Go `getOption`: first candidate name (primary first,
then alternates in declared order) that finds a match wins; the outer
`if found break` stops the scan after a match. -/
def findOptionIdx (names : List String) (args : List String) (consumed : List Bool) : Option Nat :=
  match names with
  | [] => none
  | n :: ns =>
    match findOption1 n args.length args consumed 0 with
    | some i => some i
    | none => findOptionIdx ns args consumed

/-- Go `getOption`: when a match is found at index `i`, clone, read the
value at `i + 1`, mark both indices consumed, and record the value
under the primary name; otherwise return the input state unchanged. -/
def Argv.getOption (chain : Argv) (name : String) (alts : List String) :
    Argv × String × Bool :=
  match findOptionIdx (name :: alts) chain.args chain.consumed with
  | none => (chain, "", false)
  | some i =>
    let out := chain.clone
    let val := out.args.getD (i + 1) ""
    ({ out with
        consumed := (out.consumed.set i true).set (i + 1) true,
        options := alInsert out.options name val }, val, true)

/-- Go `AllowOption`. -/
def Argv.AllowOption (chain : Argv) (name : String) (alts : List String) : Argv :=
  (chain.getOption name alts).1

/-- Go `ExpectOption`: append an error when the option was not found. -/
def Argv.ExpectOption (chain : Argv) (name : String) (alts : List String) : Argv :=
  let r := chain.getOption name alts
  if r.2.2 then r.1
  else { r.1 with errors := r.1.errors ++ [ArgErr.optionExpected name] }

/-- Scan of Go `getParam`: the first unconsumed token, together with its
index, regardless of the token's shape. -/
def findParam : List String → List Bool → Option (Nat × String)
  | [], _ => none
  | _ :: _, [] => none
  | arg :: args, c :: cs =>
    if c then (findParam args cs).map (fun r => (r.1 + 1, r.2))
    else some (0, arg)

/-- Go `getParam`: consume the first unconsumed token, append its value
to `parameters`, and return the new index (`len(out.parameters)` before
the append). -/
def Argv.getParam (chain : Argv) : Argv × Nat × Bool :=
  match findParam chain.args chain.consumed with
  | none => (chain, 0, false)
  | some (i, v) =>
    let out := chain.clone
    ({ out with
        consumed := out.consumed.set i true,
        parameters := out.parameters ++ [v] }, out.parameters.length, true)

/-- Go `AllowParam`. -/
def Argv.AllowParam (chain : Argv) : Argv :=
  (chain.getParam).1

/-- Go `AllowParamNamed`: additionally record the index under `name`
when a parameter was consumed. -/
def Argv.AllowParamNamed (chain : Argv) (name : String) : Argv :=
  let r := chain.getParam
  if r.2.2 then { r.1 with namedParameters := alInsert r.1.namedParameters name r.2.1 }
  else r.1

/-- Go `ExpectParam`: append an error when there was nothing to consume. -/
def Argv.ExpectParam (chain : Argv) : Argv :=
  let r := chain.getParam
  if r.2.2 then r.1
  else { r.1 with errors := r.1.errors ++ [ArgErr.noMoreArguments] }

/-- Go `ExpectParamNamed`. -/
def Argv.ExpectParamNamed (chain : Argv) (name : String) : Argv :=
  let r := chain.getParam
  if r.2.2 then { r.1 with namedParameters := alInsert r.1.namedParameters name r.2.1 }
  else { r.1 with errors := r.1.errors ++ [ArgErr.noMoreArguments] }

/-- Go `Chop` (argv): mark every index consumed. -/
def Argv.Chop (chain : Argv) : Argv :=
  { chain with consumed := chain.consumed.map (fun _ => true) }

/-- Tail collected by Go `ChopSlice`: the previously unconsumed tokens
in their original left-to-right order. -/
def chopTail : List Bool → List String → List String
  | [], _ => []
  | _ :: _, [] => []
  | c :: cs, arg :: args =>
    if c then chopTail cs args else arg :: chopTail cs args

/-- Go `ChopSlice` (argv): mark everything consumed and return the
previously unconsumed tokens in order. -/
def Argv.ChopSlice (chain : Argv) : Argv × List String :=
  ({ chain with consumed := chain.consumed.map (fun _ => true) },
   chopTail chain.consumed chain.args)

/-- Go `ChopString` (argv): `ChopSlice` joined with single spaces. -/
def Argv.ChopString (chain : Argv) : Argv × String :=
  let r := chain.ChopSlice
  (r.1, String.intercalate " " r.2)

/-- Count of unconsumed indices, as in the loop at the top of Go
`Validate`. -/
def countFalse : List Bool → Nat
  | [] => 0
  | c :: cs => (if c then 0 else 1) + countFalse cs

/-- Go `Validate` (argv): append an `unconsumedArguments` error when any
index is unconsumed, then fail with the (ordered) error list exactly
when it is non-empty.  `ArgsError` just wraps the list, so the
aggregate error is modelled as the list itself. -/
def Argv.Validate (final : Argv) : Argv × Option (List ArgErr) :=
  let count := countFalse final.consumed
  let final' :=
    if count > 0 then
      { final with errors := final.errors ++ [ArgErr.unconsumedArguments count] }
    else final
  (final', if final'.errors.length > 0 then some final'.errors else none)

/-- Go `ChopAndValidate` (argv): literally `final.Chop().Validate()`. -/
def Argv.ChopAndValidate (final : Argv) : Argv × Option (List ArgErr) :=
  (final.Chop).Validate

/-- Accessor `HasFlag`: whether the flag was Expected or Allowed. -/
def Argv.HasFlag (final : Argv) (name : String) : Bool :=
  (alookup final.flags name).isSome

/-- Accessor `HasOption`: whether the option was found. -/
def Argv.HasOption (final : Argv) (name : String) : Bool :=
  (alookup final.options name).isSome

/-- Accessor `HasParamAt`: Go `len(final.parameters) > i` on `int`. -/
def Argv.HasParamAt (final : Argv) (i : Int) : Bool :=
  decide ((final.parameters.length : Int) > i)

/-- Accessor `HasParamNamed`. -/
def Argv.HasParamNamed (final : Argv) (name : String) : Bool :=
  (alookup final.namedParameters name).isSome

/-- Accessor `Flag`: the looked-up value (Go zero value `false` when
absent) together with the error for an undeclared name. -/
def Argv.Flag (final : Argv) (name : String) : Bool × Option AccessErr :=
  match alookup final.flags name with
  | some v => (v, none)
  | none => (false, some (AccessErr.mustAllowFlag name))

/-- Accessor `Option` in the Go source (named `OptionVal` here because
`Option` would clash with the Lean type of the same name). -/
def Argv.OptionVal (final : Argv) (name : String) : String × Option AccessErr :=
  match alookup final.options name with
  | some v => (v, none)
  | none => ("", some (AccessErr.optionNotFound name))

/-- Result of `ParamAt`: Go returns `(value, err)`, but the slice access
`final.parameters[index]` panics for a negative index that passed the
`len > index` guard. -/
inductive ParamAtResult where
  | ok (value : String)
  | err (e : AccessErr)
  /-- The Go slice index operation is out of range. -/
  | panicked
deriving Repr, DecidableEq

/-- Accessor `ParamAt`: guard `len(final.parameters) > index` only, then
read `final.parameters[index]`. -/
def Argv.ParamAt (final : Argv) (index : Int) : ParamAtResult :=
  if (final.parameters.length : Int) > index then
    match index with
    | Int.ofNat n => ParamAtResult.ok (final.parameters.getD n "")
    | Int.negSucc _ => ParamAtResult.panicked
  else ParamAtResult.err (AccessErr.noParamAt index)

/-- Accessor `ParamNamed`: look the index up, then read the parameter
list (always in bounds for states built by this library). -/
def Argv.ParamNamed (final : Argv) (name : String) : String × Option AccessErr :=
  match alookup final.namedParameters name with
  | some i => (final.parameters.getD i "", none)
  | none => ("", some (AccessErr.noParamNamed name))

/-- One chained operation of the declaration / chop / validation
surface, from the state it is called on to the state it returns. -/
inductive Step : Argv → Argv → Prop where
  | allowFlag (s : Argv) (name : String) (alts : List String) : Step s (s.AllowFlag name alts)
  | allowOption (s : Argv) (name : String) (alts : List String) : Step s (s.AllowOption name alts)
  | allowParam (s : Argv) : Step s s.AllowParam
  | allowParamNamed (s : Argv) (name : String) : Step s (s.AllowParamNamed name)
  | expectFlag (s : Argv) (name : String) (alts : List String) : Step s (s.ExpectFlag name alts)
  | expectOption (s : Argv) (name : String) (alts : List String) : Step s (s.ExpectOption name alts)
  | expectParam (s : Argv) : Step s s.ExpectParam
  | expectParamNamed (s : Argv) (name : String) : Step s (s.ExpectParamNamed name)
  | chop (s : Argv) : Step s s.Chop
  | chopSlice (s : Argv) : Step s (s.ChopSlice).1
  | chopString (s : Argv) : Step s (s.ChopString).1
  | validate (s : Argv) : Step s (s.Validate).1
  | chopAndValidate (s : Argv) : Step s (s.ChopAndValidate).1

/-- States reachable from a constructed initial state by any chain of
declaration, chop and validation operations. -/
def Reachable (s : Argv) : Prop :=
  ∃ tokens, Relation.ReflTransGen Step (Load tokens) s

/-- The structural invariant: the consumed markers parallel the tokens,
and every named-parameter index points into the parameters list. -/
def ArgvInv (s : Argv) : Prop :=
  s.consumed.length = s.args.length ∧
    ∀ p ∈ s.namedParameters, p.2 < s.parameters.length

theorem Argv.clone_eq (s : Argv) : s.clone = s := by
  cases s
  simp [Argv.clone]

/-! ## Association list lemmas -/

theorem alookup_alInsert_self {α β : Type} [DecidableEq α]
    (m : List (α × β)) (k : α) (v : β) : alookup (alInsert m k v) k = some v := by
  induction m with
  | nil => simp [alInsert, alookup]
  | cons p rest ih =>
    obtain ⟨k', v'⟩ := p
    by_cases h : k' = k
    · simp [alInsert, alookup, h]
    · simp [alInsert, alookup, h, ih]

theorem alookup_alInsert_ne {α β : Type} [DecidableEq α]
    (m : List (α × β)) (k : α) (v : β) (k' : α) (h : k' ≠ k) :
    alookup (alInsert m k v) k' = alookup m k' := by
  induction m with
  | nil => simp [alInsert, alookup, Ne.symm h]
  | cons p rest ih =>
    obtain ⟨k₀, v₀⟩ := p
    by_cases h₀ : k₀ = k
    · subst h₀
      simp [alInsert, alookup, Ne.symm h]
    · simp only [alInsert, if_neg h₀]
      by_cases h₁ : k₀ = k'
      · simp [alookup, h₁]
      · simp [alookup, h₁, ih]

theorem mem_alInsert {α β : Type} [DecidableEq α]
    {m : List (α × β)} {k : α} {v : β} {p : α × β}
    (hp : p ∈ alInsert m k v) : p = (k, v) ∨ p ∈ m := by
  induction m with
  | nil => simpa [alInsert] using hp
  | cons q rest ih =>
    obtain ⟨k₀, v₀⟩ := q
    by_cases h : k₀ = k
    · simp only [alInsert, h, if_pos rfl] at hp
      rcases List.mem_cons.mp hp with h₁ | h₁
      · exact Or.inl h₁
      · exact Or.inr (List.mem_cons_of_mem _ h₁)
    · simp only [alInsert, if_neg h] at hp
      rcases List.mem_cons.mp hp with h₁ | h₁
      · exact Or.inr (List.mem_cons.mpr (Or.inl h₁))
      · rcases ih h₁ with h₂ | h₂
        · exact Or.inl h₂
        · exact Or.inr (List.mem_cons_of_mem _ h₂)

/-! ## Flag scan lemmas -/

theorem scanFlag1_length (n : String) :
    ∀ (args : List String) (cs : List Bool) (p : Bool),
      ((scanFlag1 n args cs p).1).length = cs.length := by
  intro args
  induction args with
  | nil => intro cs p; rfl
  | cons a as ih =>
    intro cs p
    cases cs with
    | nil => rfl
    | cons c cs' =>
      cases c
      · rcases hb : (p || nameMatches n a) with _ | _ <;>
          simp [scanFlag1, hb, ih]
      · simp [scanFlag1, ih]

theorem scanFlags_length :
    ∀ (ns : List String) (args : List String) (cs : List Bool) (p : Bool),
      ((scanFlags ns args cs p).1).length = cs.length := by
  intro ns
  induction ns with
  | nil => intro args cs p; rfl
  | cons n ns ih =>
    intro args cs p
    simp [scanFlags, ih, scanFlag1_length]

theorem get?_set_true :
    ∀ (l : List Bool) (i j : Nat), l.get? j = some true →
      (l.set i true).get? j = some true := by
  intro l
  induction l with
  | nil => intro i j h; simp at h
  | cons c cs ih =>
    intro i j h
    cases i with
    | zero =>
      cases j with
      | zero => simp [List.set]
      | succ j => simpa [List.set] using h
    | succ i =>
      cases j with
      | zero => simpa [List.set] using h
      | succ j => simpa [List.set] using ih i j (by simpa using h)

theorem scanFlag1_mono (n : String) :
    ∀ (args : List String) (cs : List Bool) (p : Bool) (j : Nat),
      cs.get? j = some true → ((scanFlag1 n args cs p).1).get? j = some true := by
  intro args
  induction args with
  | nil => intro cs p j h; exact h
  | cons a as ih =>
    intro cs p j h
    cases cs with
    | nil => simp at h
    | cons c cs' =>
      cases c
      · cases hb : (p || nameMatches n a)
        · have hp : p = false := by cases p <;> simp_all
          subst hp
          cases j with
          | zero => simp at h
          | succ j =>
            have := ih cs' false j (by simpa using h)
            simpa [scanFlag1, hb] using this
        · cases j with
          | zero => simp at h
          | succ j =>
            have : cs'.get? j = some true := by simpa using h
            simpa [scanFlag1, hb] using this
      · cases j with
        | zero => simp [scanFlag1]
        | succ j =>
          have := ih cs' p j (by simpa using h)
          simpa [scanFlag1] using this

theorem scanFlags_mono :
    ∀ (ns : List String) (args : List String) (cs : List Bool) (p : Bool) (j : Nat),
      cs.get? j = some true → ((scanFlags ns args cs p).1).get? j = some true := by
  intro ns
  induction ns with
  | nil => intro args cs p j h; exact h
  | cons n ns ih =>
    intro args cs p j h
    simpa [scanFlags] using ih args _ _ j (scanFlag1_mono n args cs p j h)

theorem get?_map_true :
    ∀ (l : List Bool) (j : Nat), l.get? j = some true →
      (l.map (fun _ => true)).get? j = some true := by
  intro l
  induction l with
  | nil => intro j h; simp at h
  | cons c cs ih =>
    intro j h
    cases j with
    | zero => simp
    | succ j => simpa using ih j (by simpa using h)

/-! ## Parameter scan lemmas -/

theorem findParam_some :
    ∀ (args : List String) (cs : List Bool) (i : Nat) (v : String),
      findParam args cs = some (i, v) →
      args.get? i = some v ∧ cs.get? i = some false ∧
        ∀ j, j < i → cs.get? j ≠ some false := by
  intro args
  induction args with
  | nil => intro cs i v h; simp [findParam] at h
  | cons a as ih =>
    intro cs i v h
    cases cs with
    | nil => simp [findParam] at h
    | cons c cs' =>
      cases c
      case false =>
        simp only [findParam, Bool.false_eq_true, if_false] at h
        injection h with h'
        injection h' with hi hv
        subst hi
        subst hv
        refine ⟨rfl, rfl, ?_⟩
        intro j hj
        omega
      case true =>
        simp only [findParam, if_true] at h
        rcases hrec : findParam as cs' with _ | ⟨i', v'⟩
        · rw [hrec] at h; simp at h
        · rw [hrec] at h
          simp only [Option.map_some'] at h
          injection h with h'
          injection h' with hi hv
          subst hi
          subst hv
          obtain ⟨h₁, h₂, h₃⟩ := ih cs' i' v' hrec
          refine ⟨by simpa using h₁, by simpa using h₂, ?_⟩
          intro j hj
          cases j with
          | zero => intro hc; simp at hc
          | succ j =>
            intro hc
            exact h₃ j (by omega) (by simpa using hc)

theorem findParam_none_iff :
    ∀ (args : List String) (cs : List Bool),
      findParam args cs = none ↔
        ∀ j, ¬(j < args.length ∧ cs.get? j = some false) := by
  intro args
  induction args with
  | nil =>
    intro cs
    simp [findParam]
  | cons a as ih =>
    intro cs
    cases cs with
    | nil =>
      simp [findParam]
    | cons c cs' =>
      cases c
      · simp only [findParam, Bool.false_eq_true, if_false]
        constructor
        · intro h; simp at h
        · intro h
          exact absurd ⟨by simp, by simp⟩ (h 0)
      · simp only [findParam, if_true, Option.map_eq_none']
        rw [ih cs']
        constructor
        · intro h j
          cases j with
          | zero => simp
          | succ j =>
            intro ⟨hj, hc⟩
            exact h j ⟨by simpa using hj, by simpa using hc⟩
        · intro h j ⟨hj, hc⟩
          exact h (j + 1) ⟨by simpa using hj, by simpa using hc⟩

/-! ## Option scan lemmas -/

theorem findOption1_some (n : String) (total : Nat) :
    ∀ (args : List String) (cs : List Bool) (k i : Nat),
      findOption1 n total args cs k = some i →
      k ≤ i ∧ (∃ a, args.get? (i - k) = some a ∧ nameMatches n a = true) ∧
        cs.get? (i - k) = some false ∧ i + 1 < total := by
  intro args
  induction args with
  | nil => intro cs k i h; simp [findOption1] at h
  | cons a as ih =>
    intro cs k i h
    cases cs with
    | nil => simp [findOption1] at h
    | cons c cs' =>
      cases c
      case true =>
        simp only [findOption1, if_true] at h
        obtain ⟨hk, ⟨a', ha', hm⟩, hc, ht⟩ := ih cs' (k + 1) i h
        refine ⟨by omega, ⟨a', ?_, hm⟩, ?_, ht⟩
        · have : i - k = (i - (k + 1)) + 1 := by omega
          rw [this]
          simpa using ha'
        · have : i - k = (i - (k + 1)) + 1 := by omega
          rw [this]
          simpa using hc
      case false =>
        simp only [findOption1, Bool.false_eq_true, if_false] at h
        by_cases hm : (nameMatches n a && decide (total > k + 1)) = true
        · rw [if_pos hm] at h
          injection h with hk
          subst hk
          simp only [Bool.and_eq_true, decide_eq_true_eq] at hm
          exact ⟨le_refl k, ⟨a, by simp, hm.1⟩, by simp, hm.2⟩
        · rw [if_neg hm] at h
          obtain ⟨hk, ⟨a', ha', hmm⟩, hc, ht⟩ := ih cs' (k + 1) i h
          refine ⟨by omega, ⟨a', ?_, hmm⟩, ?_, ht⟩
          · have : i - k = (i - (k + 1)) + 1 := by omega
            rw [this]
            simpa using ha'
          · have : i - k = (i - (k + 1)) + 1 := by omega
            rw [this]
            simpa using hc

theorem findOption1_eq_none (n : String) (total : Nat) :
    ∀ (args : List String) (cs : List Bool) (k : Nat),
      (∀ j a, args.get? j = some a → nameMatches n a = true →
        cs.get? j = some false → ¬(total > k + j + 1)) →
      findOption1 n total args cs k = none := by
  intro args
  induction args with
  | nil => intro cs k _; cases cs <;> rfl
  | cons a as ih =>
    intro cs k hyp
    cases cs with
    | nil => rfl
    | cons c cs' =>
      cases c
      case true =>
        simp only [findOption1, if_true]
        refine ih cs' (k + 1) ?_
        intro j a' ha' hm hc
        have := hyp (j + 1) a' (by simpa using ha') hm (by simpa using hc)
        omega
      case false =>
        simp only [findOption1, Bool.false_eq_true, if_false]
        have hcond : (nameMatches n a && decide (total > k + 1)) = false := by
          cases hm : nameMatches n a
          · simp
          · have := hyp 0 a (by simp) hm (by simp)
            simp only [Bool.true_and, decide_eq_false_iff_not]
            omega
        rw [hcond]
        simp only [Bool.false_eq_true, if_false]
        refine ih cs' (k + 1) ?_
        intro j a' ha' hm hc
        have := hyp (j + 1) a' (by simpa using ha') hm (by simpa using hc)
        omega

theorem findOptionIdx_some (names args : List String) (cs : List Bool) (i : Nat)
    (h : findOptionIdx names args cs = some i) :
    (∃ a n, n ∈ names ∧ args.get? i = some a ∧ nameMatches n a = true) ∧
      cs.get? i = some false ∧ i + 1 < args.length := by
  induction names with
  | nil => simp [findOptionIdx] at h
  | cons n ns ih =>
    simp only [findOptionIdx] at h
    rcases h1 : findOption1 n args.length args cs 0 with _ | i'
    · rw [h1] at h
      obtain ⟨hex, hc, ht⟩ := ih h
      obtain ⟨a, n', hn', ha, hm⟩ := hex
      exact ⟨⟨a, n', List.mem_cons_of_mem _ hn', ha, hm⟩, hc, ht⟩
    · rw [h1] at h
      injection h with h'
      subst h'
      obtain ⟨_, ⟨a, ha, hm⟩, hc, ht⟩ := findOption1_some n args.length args cs 0 i' h1
      simp only [Nat.sub_zero] at ha hc
      exact ⟨⟨a, n, List.mem_cons_self n ns, ha, hm⟩, hc, ht⟩

theorem findOptionIdx_eq_none (names args : List String) (cs : List Bool)
    (hyp : ∀ j a n, n ∈ names → args.get? j = some a → nameMatches n a = true →
      cs.get? j = some false → j + 1 ≥ args.length) :
    findOptionIdx names args cs = none := by
  induction names with
  | nil => rfl
  | cons n ns ih =>
    simp only [findOptionIdx]
    have h1 : findOption1 n args.length args cs 0 = none := by
      refine findOption1_eq_none n args.length args cs 0 ?_
      intro j a ha hm hc
      have := hyp j a n (List.mem_cons_self n ns) ha hm hc
      omega
    rw [h1]
    exact ih (fun j a n' hn' => hyp j a n' (List.mem_cons_of_mem _ hn'))

/-! ## countFalse lemmas -/

theorem countFalse_map_true (l : List Bool) :
    countFalse (l.map (fun _ => true)) = 0 := by
  induction l with
  | nil => rfl
  | cons c cs ih => simpa [countFalse] using ih

theorem countFalse_replicate_true (n : Nat) :
    countFalse (List.replicate n true) = 0 := by
  induction n with
  | zero => rfl
  | succ n ih => simpa [countFalse, List.replicate] using ih

/-! ## Unfolded forms of the three matchers -/

theorem getFlag_eq (s : Argv) (name : String) (alts : List String) :
    s.getFlag name alts =
      ({ s with
          consumed := (scanFlags (name :: alts) s.args s.consumed false).1,
          flags := alInsert s.flags name (scanFlags (name :: alts) s.args s.consumed false).2 },
        (scanFlags (name :: alts) s.args s.consumed false).2) := by
  simp [Argv.getFlag, Argv.clone_eq]

theorem getOption_eq_none (s : Argv) (name : String) (alts : List String)
    (h : findOptionIdx (name :: alts) s.args s.consumed = none) :
    s.getOption name alts = (s, "", false) := by
  simp [Argv.getOption, h]

theorem getOption_eq_some (s : Argv) (name : String) (alts : List String) (i : Nat)
    (h : findOptionIdx (name :: alts) s.args s.consumed = some i) :
    s.getOption name alts =
      ({ s with
          consumed := (s.consumed.set i true).set (i + 1) true,
          options := alInsert s.options name (s.args.getD (i + 1) "") },
        s.args.getD (i + 1) "", true) := by
  simp [Argv.getOption, h, Argv.clone_eq]

theorem getParam_eq_none (s : Argv)
    (h : findParam s.args s.consumed = none) :
    s.getParam = (s, 0, false) := by
  simp [Argv.getParam, h]

theorem getParam_eq_some (s : Argv) (i : Nat) (v : String)
    (h : findParam s.args s.consumed = some (i, v)) :
    s.getParam =
      ({ s with
          consumed := s.consumed.set i true,
          parameters := s.parameters ++ [v] },
        s.parameters.length, true) := by
  simp [Argv.getParam, h, Argv.clone_eq]

/-! ## Reachability and invariants -/

theorem Validate_fst (s : Argv) :
    (s.Validate).1 =
      if countFalse s.consumed > 0 then
        { s with errors := s.errors ++ [ArgErr.unconsumedArguments (countFalse s.consumed)] }
      else s := rfl

theorem step_inv {s t : Argv} (hstep : Step s t) (h : ArgvInv s) : ArgvInv t := by
  obtain ⟨h1, h2⟩ := h
  cases hstep with
  | allowFlag name alts =>
    rw [Argv.AllowFlag, getFlag_eq]
    exact ⟨by simpa [scanFlags_length] using h1, h2⟩
  | expectFlag name alts =>
    rw [Argv.ExpectFlag, getFlag_eq]
    split
    · exact ⟨by simpa [scanFlags_length] using h1, h2⟩
    · exact ⟨by simpa [scanFlags_length] using h1, h2⟩
  | allowOption name alts =>
    rw [Argv.AllowOption]
    rcases hf : findOptionIdx (name :: alts) s.args s.consumed with _ | i
    · rw [getOption_eq_none s name alts hf]
      exact ⟨h1, h2⟩
    · rw [getOption_eq_some s name alts i hf]
      exact ⟨by simpa using h1, h2⟩
  | expectOption name alts =>
    rw [Argv.ExpectOption]
    rcases hf : findOptionIdx (name :: alts) s.args s.consumed with _ | i
    · rw [getOption_eq_none s name alts hf]
      exact ⟨h1, h2⟩
    · rw [getOption_eq_some s name alts i hf]
      exact ⟨by simpa using h1, h2⟩
  | allowParam =>
    rw [Argv.AllowParam]
    rcases hf : findParam s.args s.consumed with _ | ⟨i, v⟩
    · rw [getParam_eq_none s hf]
      exact ⟨h1, h2⟩
    · rw [getParam_eq_some s i v hf]
      refine ⟨by simpa using h1, ?_⟩
      intro p hp
      have := h2 p hp
      simp only [List.length_append, List.length_cons, List.length_nil]
      omega
  | expectParam =>
    rw [Argv.ExpectParam]
    rcases hf : findParam s.args s.consumed with _ | ⟨i, v⟩
    · rw [getParam_eq_none s hf]
      exact ⟨h1, h2⟩
    · rw [getParam_eq_some s i v hf]
      refine ⟨by simpa using h1, ?_⟩
      intro p hp
      have := h2 p hp
      show p.2 < (s.parameters ++ [v]).length
      simp only [List.length_append, List.length_cons, List.length_nil]
      omega
  | allowParamNamed name =>
    rw [Argv.AllowParamNamed]
    rcases hf : findParam s.args s.consumed with _ | ⟨i, v⟩
    · rw [getParam_eq_none s hf]
      exact ⟨h1, h2⟩
    · rw [getParam_eq_some s i v hf]
      refine ⟨by simpa using h1, ?_⟩
      intro p hp
      rcases mem_alInsert hp with hp' | hp'
      · subst hp'
        show s.parameters.length < (s.parameters ++ [v]).length
        simp
      · have := h2 p hp'
        show p.2 < (s.parameters ++ [v]).length
        simp only [List.length_append, List.length_cons, List.length_nil]
        omega
  | expectParamNamed name =>
    rw [Argv.ExpectParamNamed]
    rcases hf : findParam s.args s.consumed with _ | ⟨i, v⟩
    · rw [getParam_eq_none s hf]
      exact ⟨h1, h2⟩
    · rw [getParam_eq_some s i v hf]
      refine ⟨by simpa using h1, ?_⟩
      intro p hp
      rcases mem_alInsert hp with hp' | hp'
      · subst hp'
        show s.parameters.length < (s.parameters ++ [v]).length
        simp
      · have := h2 p hp'
        show p.2 < (s.parameters ++ [v]).length
        simp only [List.length_append, List.length_cons, List.length_nil]
        omega
  | chop =>
    exact ⟨by simpa [Argv.Chop] using h1, h2⟩
  | chopSlice =>
    exact ⟨by simpa [Argv.ChopSlice] using h1, h2⟩
  | chopString =>
    exact ⟨by simpa [Argv.ChopString, Argv.ChopSlice] using h1, h2⟩
  | validate =>
    rw [Validate_fst]
    split
    · exact ⟨h1, h2⟩
    · exact ⟨h1, h2⟩
  | chopAndValidate =>
    rw [Argv.ChopAndValidate, Validate_fst]
    split
    · exact ⟨by simpa [Argv.Chop] using h1, h2⟩
    · exact ⟨by simpa [Argv.Chop] using h1, h2⟩

theorem step_mono {s t : Argv} (hstep : Step s t) :
    ∀ j, s.consumed.get? j = some true → t.consumed.get? j = some true := by
  intro j hj
  cases hstep with
  | allowFlag name alts =>
    rw [Argv.AllowFlag, getFlag_eq]
    exact scanFlags_mono _ _ _ _ _ hj
  | expectFlag name alts =>
    rw [Argv.ExpectFlag, getFlag_eq]
    split
    · exact scanFlags_mono _ _ _ _ _ hj
    · exact scanFlags_mono _ _ _ _ _ hj
  | allowOption name alts =>
    rw [Argv.AllowOption]
    rcases hf : findOptionIdx (name :: alts) s.args s.consumed with _ | i
    · rw [getOption_eq_none s name alts hf]
      exact hj
    · rw [getOption_eq_some s name alts i hf]
      exact get?_set_true _ _ _ (get?_set_true _ _ _ hj)
  | expectOption name alts =>
    rw [Argv.ExpectOption]
    rcases hf : findOptionIdx (name :: alts) s.args s.consumed with _ | i
    · rw [getOption_eq_none s name alts hf]
      exact hj
    · rw [getOption_eq_some s name alts i hf]
      exact get?_set_true _ _ _ (get?_set_true _ _ _ hj)
  | allowParam =>
    rw [Argv.AllowParam]
    rcases hf : findParam s.args s.consumed with _ | ⟨i, v⟩
    · rw [getParam_eq_none s hf]
      exact hj
    · rw [getParam_eq_some s i v hf]
      exact get?_set_true _ _ _ hj
  | expectParam =>
    rw [Argv.ExpectParam]
    rcases hf : findParam s.args s.consumed with _ | ⟨i, v⟩
    · rw [getParam_eq_none s hf]
      exact hj
    · rw [getParam_eq_some s i v hf]
      exact get?_set_true _ _ _ hj
  | allowParamNamed name =>
    rw [Argv.AllowParamNamed]
    rcases hf : findParam s.args s.consumed with _ | ⟨i, v⟩
    · rw [getParam_eq_none s hf]
      exact hj
    · rw [getParam_eq_some s i v hf]
      exact get?_set_true _ _ _ hj
  | expectParamNamed name =>
    rw [Argv.ExpectParamNamed]
    rcases hf : findParam s.args s.consumed with _ | ⟨i, v⟩
    · rw [getParam_eq_none s hf]
      exact hj
    · rw [getParam_eq_some s i v hf]
      exact get?_set_true _ _ _ hj
  | chop =>
    exact get?_map_true _ _ hj
  | chopSlice =>
    exact get?_map_true _ _ hj
  | chopString =>
    exact get?_map_true _ _ hj
  | validate =>
    rw [Validate_fst]
    split
    · exact hj
    · exact hj
  | chopAndValidate =>
    rw [Argv.ChopAndValidate, Validate_fst]
    split
    · exact get?_map_true _ _ hj
    · exact get?_map_true _ _ hj

theorem load_inv (tokens : List String) : ArgvInv (Load tokens) := by
  refine ⟨by simp [Load], ?_⟩
  intro p hp
  simp [Load] at hp

theorem reachable_inv {s : Argv} (h : Reachable s) : ArgvInv s := by
  obtain ⟨tokens, hchain⟩ := h
  induction hchain with
  | refl => exact load_inv tokens
  | tail _ hstep ih => exact step_inv hstep ih

/-! ## Claim theorems -/

/-- C1: the claim states that a flag declaration marks exactly one token
(the first unconsumed token spelled `--name` or `-name`) consumed on
success and changes no other marker.  The code violates this: `getFlag`
never resets `present` between candidate names and never breaks the
outer loop, so with tokens `["foo", "-v"]`, `AllowFlag "v" ["verbose"]`
consumes both `-v` and the unrelated token `foo` (the alternate name's
scan consumes the first unconsumed token unconditionally because
`present` is already true).  Without alternates only `-v` is consumed,
as the claim demands. -/
theorem C1_flag_overconsumption :
    ((Load ["foo", "-v"]).AllowFlag "v" ["verbose"]).consumed = [true, true] ∧
    ((Load ["foo", "-v"]).AllowFlag "v" []).consumed = [false, true] ∧
    ((Load ["foo", "-v"]).AllowFlag "v" ["verbose"]).flags = [("v", true)] := by
  refine ⟨by decide, by decide, by decide⟩

/-- C2 counterexample: with tokens `["--key"]` and `ExpectOption "key"`,
the option is NOT reported found — its name is not recorded in
`options` (the lookup is `none`), the token is not consumed, and the
accumulated error is the generic expected-and-not-found error, not a
distinct "option missing value" condition.  This falsifies the claim
that the option "is still found — its name is recorded". -/
theorem C2_option_last_token_counterexample :
    alookup ((Load ["--key"]).ExpectOption "key" []).options "key" = none ∧
    ((Load ["--key"]).ExpectOption "key" []).consumed = [false] ∧
    ((Load ["--key"]).ExpectOption "key" []).errors = [ArgErr.optionExpected "key"] ∧
    ((((Load ["--key"]).ExpectOption "key" []).Validate)).2 =
      some [ArgErr.optionExpected "key", ArgErr.unconsumedArguments 1] := by
  refine ⟨by decide, by decide, by decide, by decide⟩

/-- C2 (amended): whenever no candidate name (primary or alternate, in
either dash form) matches an unconsumed token that has a further token
after it — in particular when the only occurrence of the option's name
token is the very last token of the sequence — the option is treated
exactly as absent: `AllowOption` returns the state unchanged, and
`ExpectOption` appends the generic "option expected and not found"
error without recording the name in `options`. -/
theorem C2_option_last_token (s : Argv) (name : String) (alts : List String)
    (hyp : ∀ i a n, n ∈ name :: alts → s.args.get? i = some a →
      nameMatches n a = true → s.consumed.get? i = some false →
      i + 1 ≥ s.args.length) :
    s.AllowOption name alts = s ∧
    s.ExpectOption name alts =
      { s with errors := s.errors ++ [ArgErr.optionExpected name] } ∧
    alookup (s.ExpectOption name alts).options name = alookup s.options name := by
  have hnone : findOptionIdx (name :: alts) s.args s.consumed = none :=
    findOptionIdx_eq_none _ _ _ (fun j a n hn ha hm hc => hyp j a n hn ha hm hc)
  refine ⟨?_, ?_, ?_⟩
  · rw [Argv.AllowOption, getOption_eq_none s name alts hnone]
  · rw [Argv.ExpectOption, getOption_eq_none s name alts hnone]
    rfl
  · rw [Argv.ExpectOption, getOption_eq_none s name alts hnone]
    rfl

/-- C2 witness: the amended statement instantiated at the concrete
Scenario C input `["--key"]`. -/
theorem C2_option_last_token_witness :
    (Load ["--key"]).AllowOption "key" [] = Load ["--key"] ∧
    (Load ["--key"]).ExpectOption "key" [] =
      { Load ["--key"] with
          errors := (Load ["--key"]).errors ++ [ArgErr.optionExpected "key"] } ∧
    alookup ((Load ["--key"]).ExpectOption "key" []).options "key" =
      alookup (Load ["--key"]).options "key" := by
  refine C2_option_last_token (Load ["--key"]) "key" [] ?_
  intro i a n hn ha hm hc
  cases i with
  | zero => decide
  | succ i => simp [Load] at ha

/-- C3: declaration calls never modify the state they are called on.
Every state-returning operation first produces a complete independent
copy via `clone` before any mutation (verified definition by
definition), so in this value-level model `clone` is the identity;
Scenario F: for tokens `["foo", "bar"]`, presence of the undeclared
name "fizzbuzz" on the initial state is `false`, declaring it on a
derived state makes presence `true` on the derived state, and the
original state's presence query still yields `false`. -/
theorem C3_immutability :
    (∀ s : Argv, s.clone = s) ∧
    (Load ["foo", "bar"]).HasFlag "fizzbuzz" = false ∧
    ((Load ["foo", "bar"]).ExpectFlag "fizzbuzz" []).HasFlag "fizzbuzz" = true ∧
    (Load ["foo", "bar"]).HasFlag "fizzbuzz" = false ∧
    (Load ["foo", "bar"]).HasParamNamed "fizzbuzz" = false ∧
    ((Load ["foo", "bar"]).ExpectParamNamed "fizzbuzz").HasParamNamed "fizzbuzz" = true ∧
    (Load ["foo", "bar"]).HasParamNamed "fizzbuzz" = false := by
  refine ⟨Argv.clone_eq, by decide, by decide, by decide, by decide, by decide, by decide⟩

/-- C4: `Validate` returns an error exactly when the accumulated error
list is non-empty or at least one token is unconsumed; the unconsumed
check always runs and appends its error after the accumulated ones, and
the aggregate error is the ordered list of the individual failures. -/
theorem C4_validate_aggregate (s : Argv) :
    ((s.Validate).2 = none ↔ s.errors = [] ∧ countFalse s.consumed = 0) ∧
    ((s.Validate).2 =
        some (s.errors ++
          (if countFalse s.consumed > 0 then
            [ArgErr.unconsumedArguments (countFalse s.consumed)]
          else [])) ↔
      (s.errors ≠ [] ∨ countFalse s.consumed > 0)) := by
  by_cases hc : countFalse s.consumed > 0
  · have h2 : (s.Validate).2 =
        some (s.errors ++ [ArgErr.unconsumedArguments (countFalse s.consumed)]) := by
      simp [Argv.Validate, hc]
    constructor
    · rw [h2]
      constructor
      · intro h
        simp at h
      · intro h
        exact absurd h.2 (by omega)
    · constructor
      · intro _
        exact Or.inr hc
      · intro _
        rw [h2, if_pos hc]
  · have hc0 : countFalse s.consumed = 0 := by omega
    have h2 : (s.Validate).2 =
        if s.errors.length > 0 then some s.errors else none := by
      simp [Argv.Validate, hc]
    by_cases he : s.errors = []
    · have h3 : (s.Validate).2 = none := by rw [h2]; simp [he]
      constructor
      · simp [h3, he, hc0]
      · rw [h3]
        simp [he, hc]
    · have h3 : (s.Validate).2 = some s.errors := by
        rw [h2]
        simp [List.length_pos, he]
      constructor
      · simp [h3, he]
      · rw [h3]
        simp [he, hc]

/-- C5: when a candidate name (primary first, then alternates in
declared order) matches an unconsumed token with a further token after
it, the option token and the token immediately after it are marked
consumed, and the value is recorded under the primary name only (other
keys of `options` are untouched); Scenario D: for tokens
`["-k", "value"]` with `ExpectOption "key" ["id", "k"]`, both tokens
are consumed, validation succeeds, and `Option "key"` is `"value"`. -/
theorem C5_option_binding :
    (∀ (s : Argv) (name : String) (alts : List String) (i : Nat),
      findOptionIdx (name :: alts) s.args s.consumed = some i →
        s.consumed.get? i = some false ∧ i + 1 < s.args.length ∧
        s.AllowOption name alts =
          { s with
              consumed := (s.consumed.set i true).set (i + 1) true,
              options := alInsert s.options name (s.args.getD (i + 1) "") } ∧
        alookup (s.AllowOption name alts).options name =
          some (s.args.getD (i + 1) "") ∧
        (∀ k, k ≠ name →
          alookup (s.AllowOption name alts).options k = alookup s.options k)) ∧
    ((Load ["-k", "value"]).ExpectOption "key" ["id", "k"]).consumed = [true, true] ∧
    (((Load ["-k", "value"]).ExpectOption "key" ["id", "k"]).Validate).2 = none ∧
    ((Load ["-k", "value"]).ExpectOption "key" ["id", "k"]).OptionVal "key" =
      ("value", none) := by
  refine ⟨?_, by decide, by decide, by decide⟩
  intro s name alts i hf
  obtain ⟨_, hc, ht⟩ := findOptionIdx_some _ _ _ _ hf
  have hA : s.AllowOption name alts =
      { s with
          consumed := (s.consumed.set i true).set (i + 1) true,
          options := alInsert s.options name (s.args.getD (i + 1) "") } := by
    rw [Argv.AllowOption, getOption_eq_some s name alts i hf]
  refine ⟨hc, ht, hA, ?_, ?_⟩
  · rw [hA]
    exact alookup_alInsert_self _ _ _
  · intro k hk
    rw [hA]
    exact alookup_alInsert_ne _ _ _ _ hk

/-- C5 witness: the general clause instantiated at the Scenario D
input, where the short alternate "k" matches at index 0. -/
theorem C5_option_binding_witness :
    (Load ["-k", "value"]).consumed.get? 0 = some false ∧
    alookup ((Load ["-k", "value"]).AllowOption "key" ["id", "k"]).options "key" =
      some ((Load ["-k", "value"]).args.getD (0 + 1) "") := by
  have h := C5_option_binding.1 (Load ["-k", "value"]) "key" ["id", "k"] 0 (by decide)
  exact ⟨h.1, h.2.2.2.1⟩

/-- C6: every positional-parameter call consumes the first unconsumed
token in strict left-to-right order regardless of its shape, marks it
consumed, appends its value to `parameters`, and returns / records its
new index (the old length of `parameters`); the `Expect` variants
append an error exactly when no unconsumed token remains (and the
`none` case of the scan is equivalent to every in-range index being
consumed). -/
theorem C6_param_consumption :
    (∀ (s : Argv) (i : Nat) (v : String),
      findParam s.args s.consumed = some (i, v) →
        s.args.get? i = some v ∧ s.consumed.get? i = some false ∧
        (∀ j, j < i → s.consumed.get? j ≠ some false) ∧
        s.AllowParam =
          { s with consumed := s.consumed.set i true,
                   parameters := s.parameters ++ [v] } ∧
        (s.getParam).2.1 = s.parameters.length ∧
        s.ExpectParam = s.AllowParam ∧
        (∀ name, s.AllowParamNamed name =
          { s with consumed := s.consumed.set i true,
                   parameters := s.parameters ++ [v],
                   namedParameters :=
                     alInsert s.namedParameters name s.parameters.length }) ∧
        (∀ name, s.ExpectParamNamed name = s.AllowParamNamed name)) ∧
    (∀ s : Argv,
      findParam s.args s.consumed = none →
        s.AllowParam = s ∧
        s.ExpectParam = { s with errors := s.errors ++ [ArgErr.noMoreArguments] } ∧
        (∀ name, s.AllowParamNamed name = s) ∧
        (∀ name, s.ExpectParamNamed name =
          { s with errors := s.errors ++ [ArgErr.noMoreArguments] })) ∧
    (∀ s : Argv, findParam s.args s.consumed = none ↔
      ∀ j, ¬(j < s.args.length ∧ s.consumed.get? j = some false)) ∧
    ((Load ["--foo"]).AllowParam).parameters = ["--foo"] := by
  refine ⟨?_, ?_, ?_, by decide⟩
  · intro s i v hf
    obtain ⟨ha, hc, hfirst⟩ := findParam_some _ _ _ _ hf
    refine ⟨ha, hc, hfirst, ?_, ?_, ?_, ?_, ?_⟩
    · rw [Argv.AllowParam, getParam_eq_some s i v hf]
    · rw [getParam_eq_some s i v hf]
    · rw [Argv.ExpectParam, Argv.AllowParam, getParam_eq_some s i v hf]
      rfl
    · intro name
      rw [Argv.AllowParamNamed, getParam_eq_some s i v hf]
      rfl
    · intro name
      rw [Argv.ExpectParamNamed, Argv.AllowParamNamed, getParam_eq_some s i v hf]
      rfl
  · intro s hf
    refine ⟨?_, ?_, ?_, ?_⟩
    · rw [Argv.AllowParam, getParam_eq_none s hf]
    · rw [Argv.ExpectParam, getParam_eq_none s hf]
      rfl
    · intro name
      rw [Argv.AllowParamNamed, getParam_eq_none s hf]
      rfl
    · intro name
      rw [Argv.ExpectParamNamed, getParam_eq_none s hf]
      rfl
  · intro s
    exact findParam_none_iff s.args s.consumed

/-- C6 witness: the first clause instantiated at the single token
`["--foo"]`, whose dash shape does not stop parameter capture. -/
theorem C6_param_consumption_witness :
    (Load ["--foo"]).args.get? 0 = some "--foo" ∧
    (Load ["--foo"]).AllowParam =
      { Load ["--foo"] with
          consumed := (Load ["--foo"]).consumed.set 0 true,
          parameters := (Load ["--foo"]).parameters ++ ["--foo"] } := by
  have h := C6_param_consumption.1 (Load ["--foo"]) 0 "--foo" (by decide)
  exact ⟨h.1, h.2.2.2.1⟩

/-- C7: every state reachable from a constructed initial state by any
chain of declaration, chop and validation operations keeps the consumed
markers parallel to the tokens and every `namedParameters` value a
valid index into `parameters`; moreover any single further operation
preserves every consumed marker (a consumed index is never unmarked,
and since every matcher skips consumed indices it is never matched
again). -/
theorem C7_reachable_invariants (s : Argv) (h : Reachable s) :
    (s.consumed.length = s.args.length ∧
      ∀ p ∈ s.namedParameters, p.2 < s.parameters.length) ∧
    ∀ t, Step s t → ∀ j, s.consumed.get? j = some true →
      t.consumed.get? j = some true := by
  refine ⟨reachable_inv h, ?_⟩
  intro t hstep j hj
  exact step_mono hstep j hj

/-- C7 witness: the invariant instantiated at the state reached from
`Load ["a"]` by one `AllowParam` step. -/
theorem C7_reachable_invariants_witness :
    ((Load ["a"]).AllowParam).consumed.length =
      ((Load ["a"]).AllowParam).args.length :=
  (C7_reachable_invariants ((Load ["a"]).AllowParam)
    ⟨["a"], Relation.ReflTransGen.single (Step.allowParam (Load ["a"]))⟩).1.1

/-- C8: after `AllowFlag` or `ExpectFlag` with primary name `n`, the
found result is recorded in `flags` under `n` whether or not a matching
token existed, so the `Flag` accessor on the resulting state returns
without error (yielding `false` when declared but absent), while `Flag`
on a state whose `flags` map lacks the name returns the
must-Allow-or-Expect error. -/
theorem C8_flag_recording (s : Argv) (name : String) (alts : List String) :
    alookup (s.AllowFlag name alts).flags name = some (s.getFlag name alts).2 ∧
    alookup (s.ExpectFlag name alts).flags name = some (s.getFlag name alts).2 ∧
    (s.AllowFlag name alts).Flag name = ((s.getFlag name alts).2, none) ∧
    (s.ExpectFlag name alts).Flag name = ((s.getFlag name alts).2, none) ∧
    (∀ t : Argv, alookup t.flags name = none →
      t.Flag name = (false, some (AccessErr.mustAllowFlag name))) := by
  have hA : alookup (s.AllowFlag name alts).flags name =
      some (s.getFlag name alts).2 := by
    rw [Argv.AllowFlag, getFlag_eq]
    exact alookup_alInsert_self _ _ _
  have hE : alookup (s.ExpectFlag name alts).flags name =
      some (s.getFlag name alts).2 := by
    rw [Argv.ExpectFlag, getFlag_eq]
    split
    · exact alookup_alInsert_self _ _ _
    · exact alookup_alInsert_self _ _ _
  refine ⟨hA, hE, ?_, ?_, ?_⟩
  · rw [Argv.Flag, hA]
  · rw [Argv.Flag, hE]
  · intro t ht
    rw [Argv.Flag, ht]

/-- C8 witness: with no tokens, `AllowFlag "x"` records `false` under
"x" and the accessor returns it without error, while the undeclared
initial state yields the must-Allow-or-Expect error. -/
theorem C8_flag_recording_witness :
    alookup ((Load []).AllowFlag "x" []).flags "x" = some ((Load []).getFlag "x" []).2 ∧
    (Load []).Flag "x" = (false, some (AccessErr.mustAllowFlag "x")) := by
  have h := C8_flag_recording (Load []) "x" []
  exact ⟨h.1, h.2.2.2.2 (Load []) (by decide)⟩

/-- C9: on a state whose accumulated error list is empty, `Chop`
followed by `Validate` never fails, whatever unconsumed tokens
remained; and `ChopAndValidate` is literally `Chop` then `Validate`. -/
theorem C9_chop_validate (s : Argv) (h : s.errors = []) :
    ((s.Chop).Validate).2 = none ∧ s.ChopAndValidate = (s.Chop).Validate := by
  refine ⟨?_, rfl⟩
  simp [Argv.Validate, Argv.Chop, h, countFalse_map_true, countFalse_replicate_true]

/-- C9 witness: the round trip instantiated at `Load ["a", "b"]` with
both tokens still unconsumed. -/
theorem C9_chop_validate_witness :
    (((Load ["a", "b"]).Chop).Validate).2 = none ∧
    (Load ["a", "b"]).ChopAndValidate = ((Load ["a", "b"]).Chop).Validate :=
  C9_chop_validate (Load ["a", "b"]) rfl

/-- C10: `HasParamAt i` is exactly the test `parameters.length > i` on
integers, so every negative `i` yields `true` even with no parameters;
`ParamAt` guards the slice access by the same test only, so a negative
index passes the guard and the access is out of range (a Go panic), and
`ParamAt` returns a value without error exactly when
`0 ≤ i < parameters.length`. -/
theorem C10_param_accessor_totality (s : Argv) (i : Int) :
    (s.HasParamAt i = true ↔ i < (s.parameters.length : Int)) ∧
    (i < 0 → s.HasParamAt i = true ∧ s.ParamAt i = ParamAtResult.panicked) ∧
    ((∃ v, s.ParamAt i = ParamAtResult.ok v) ↔
      0 ≤ i ∧ i < (s.parameters.length : Int)) := by
  refine ⟨?_, ?_, ?_⟩
  · simp [Argv.HasParamAt]
  · intro hneg
    constructor
    · simp only [Argv.HasParamAt, decide_eq_true_eq]
      omega
    · cases i with
      | ofNat n => exact absurd hneg (by rw [Int.ofNat_eq_coe]; omega)
      | negSucc n =>
        have hg : (s.parameters.length : Int) > Int.negSucc n := by
          rw [Int.negSucc_eq]
          omega
        rw [Argv.ParamAt.eq_def, if_pos hg]
  · constructor
    · intro ⟨v, hv⟩
      rw [Argv.ParamAt.eq_def] at hv
      by_cases hg : (s.parameters.length : Int) > i
      · rw [if_pos hg] at hv
        cases i with
        | ofNat n =>
          refine ⟨?_, hg⟩
          rw [Int.ofNat_eq_coe]
          omega
        | negSucc n => simp at hv
      · rw [if_neg hg] at hv
        simp at hv
    · intro ⟨h0, hlt⟩
      cases i with
      | ofNat n =>
        refine ⟨s.parameters.getD n "", ?_⟩
        rw [Argv.ParamAt.eq_def, if_pos hlt]
      | negSucc n => exact absurd h0 (by rw [Int.negSucc_eq]; omega)

/-- C10 witness: on a state with no parameters at all, index `-1` still
passes the presence check and makes the guarded access panic. -/
theorem C10_param_accessor_totality_witness :
    (Load []).HasParamAt (-1) = true ∧
    (Load []).ParamAt (-1) = ParamAtResult.panicked :=
  (C10_param_accessor_totality (Load []) (-1)).2.1 (by decide)
